import Mathlib

/-!
Verification of the browser-pool + caching screenshot pipeline of
`site-path-search` (src/python/services/website_screenshot_service.py and
src/python/api/main.py), shallowly embedded in Lean 4.

Modelling conventions:
* Browser handles are opaque values, embedded as natural-number identifiers.
* The `deque` of free browsers in `BrowserPool` is a `List Nat`
  (`popleft` = head removal, `append` = snoc).
* Ghost fields `checkedOut` and `closed` record which handles are currently
  handed out and which have been closed; they only log events and never
  influence the control flow of an operation.
* Chromium/Firefox launch outcomes during pool initialization are supplied by
  an environment function `slots : Nat → Bool` (slot i succeeds iff
  `slots i = true`), mirroring the per-slot try/except of
  `BrowserPool.initialize`.
-/

namespace SiteScreenshot

/-- State of `BrowserPool` (website_screenshot_service.py, lines 40-214).
`browsers` is the free deque; `checkedOut`/`closed` are ghost logs. -/
structure PoolState where
  poolSize : Nat
  browsers : List Nat
  initialized : Bool
  isShutdown : Bool
  nextId : Nat
  checkedOut : List Nat
  closed : List Nat
  deriving Repr, DecidableEq

/-- A freshly constructed `BrowserPool(pool_size=n)` (constructor, lines 45-61). -/
def freshPool (n : Nat) : PoolState :=
  { poolSize := n, browsers := [], initialized := false, isShutdown := false,
    nextId := 0, checkedOut := [], closed := [] }

/-- `BrowserPool.initialize` (lines 63-120): if already initialized, a no-op;
otherwise launch one browser per slot in `range(pool_size)`, where slot `i`
contributes a browser exactly when the environment says the chromium launch
(or its firefox fallback) succeeded; failed slots are simply skipped. -/
def initPool (slots : Nat → Bool) (s : PoolState) : PoolState :=
  if s.initialized then s
  else
    let k := (List.range s.poolSize).countP (fun i => slots i)
    { s with browsers := s.browsers ++ List.range' s.nextId k,
             nextId := s.nextId + k,
             initialized := true }

/-- `BrowserPool.get_browser` (lines 122-139): initialize first if needed,
return `none` when shut down, else pop the leftmost free browser. -/
def getBrowser (slots : Nat → Bool) (s : PoolState) : Option Nat × PoolState :=
  let s1 := if s.initialized then s else initPool slots s
  if s1.isShutdown then (none, s1)
  else
    match s1.browsers with
    | [] => (none, s1)
    | b :: rest =>
        (some b, { s1 with browsers := rest, checkedOut := b :: s1.checkedOut })

/-- `BrowserPool.return_browser` (lines 141-160): after shutdown the handle is
closed; below capacity it is appended to the free deque; at (or above)
capacity it is closed instead. -/
def returnBrowser (h : Nat) (s : PoolState) : PoolState :=
  if s.isShutdown then
    { s with closed := h :: s.closed, checkedOut := s.checkedOut.erase h }
  else if s.browsers.length < s.poolSize then
    { s with browsers := s.browsers ++ [h], checkedOut := s.checkedOut.erase h }
  else
    { s with closed := h :: s.closed, checkedOut := s.checkedOut.erase h }

/-- `BrowserPool.shutdown` (lines 162-204): idempotent (the shutdown flag is
checked first), then drains and closes every free browser. -/
def shutdownPool (s : PoolState) : PoolState :=
  if s.isShutdown then s
  else { s with isShutdown := true, browsers := [],
                closed := s.browsers ++ s.closed }

/-- One externally invokable pool operation.  `opRet h` carries the handle a
client hands back; a client can only return a handle it actually holds, which
`poolStep` enforces by consulting the ghost `checkedOut` log. -/
inductive PoolOp where
  | opInit (slots : Nat → Bool)
  | opGet (slots : Nat → Bool)
  | opRet (h : Nat)
  | opShutdown

/-- Small-step interpreter for pool operations. -/
def poolStep (s : PoolState) : PoolOp → PoolState
  | .opInit slots => initPool slots s
  | .opGet slots => (getBrowser slots s).2
  | .opRet h => if h ∈ s.checkedOut then returnBrowser h s else s
  | .opShutdown => shutdownPool s

/-- Run a sequence of pool operations. -/
def runPool (ops : List PoolOp) (s : PoolState) : PoolState :=
  ops.foldl poolStep s

/-- The pool invariant: the free deque never exceeds `pool_size`; no
checked-out handle sits in the free deque; an uninitialized pool is empty;
all live handles were minted below `nextId`; and live handles are pairwise
distinct. -/
def PoolInv (s : PoolState) : Prop :=
  s.browsers.length ≤ s.poolSize ∧
  (∀ h ∈ s.checkedOut, h ∉ s.browsers) ∧
  (s.initialized = false → s.browsers = [] ∧ s.checkedOut = []) ∧
  (∀ h ∈ s.browsers, h < s.nextId) ∧
  (∀ h ∈ s.checkedOut, h < s.nextId) ∧
  (s.browsers ++ s.checkedOut).Nodup

lemma poolInv_fresh (n : Nat) : PoolInv (freshPool n) := by
  simp [PoolInv, freshPool]

lemma initPool_inv (slots : Nat → Bool) {s : PoolState} (hs : PoolInv s) :
    PoolInv (initPool slots s) := by
  obtain ⟨h1, h2, h3, h4, h5, h6⟩ := hs
  by_cases hi : s.initialized = true
  · simpa [initPool, hi] using ⟨h1, h2, h3, h4, h5, h6⟩
  · have hfalse : s.initialized = false := by
      cases hini : s.initialized
      · rfl
      · exact absurd hini hi
    obtain ⟨hb, hc⟩ := h3 hfalse
    have hres : initPool slots s =
        { s with
          browsers := List.range' s.nextId ((List.range s.poolSize).countP (fun i => slots i)),
          nextId := s.nextId + (List.range s.poolSize).countP (fun i => slots i),
          initialized := true } := by
      simp [initPool, hi, hb]
    rw [hres]
    refine ⟨?_, ?_, ?_, ?_, ?_, ?_⟩
    · simp only
      rw [List.length_range']
      calc (List.range s.poolSize).countP (fun i => slots i)
          ≤ (List.range s.poolSize).length := List.countP_le_length _
        _ = s.poolSize := List.length_range _
    · intro h hh
      rw [hc] at hh
      exact absurd hh (List.not_mem_nil h)
    · intro hcontra
      exact absurd hcontra (by simp)
    · intro h hh
      simp only at hh
      rw [List.mem_range'] at hh
      show h < s.nextId + (List.range s.poolSize).countP (fun i => slots i)
      omega
    · intro h hh
      rw [hc] at hh
      exact absurd hh (List.not_mem_nil h)
    · simp only [hc, List.append_nil]
      exact List.nodup_range' _ _ 1 Nat.one_pos

/-- Popping the head of the free deque into the checked-out set preserves the
pool invariant. -/
lemma pop_inv {s : PoolState} (hs : PoolInv s) {b : Nat} {rest : List Nat}
    (hb : s.browsers = b :: rest) :
    PoolInv { s with browsers := rest, checkedOut := b :: s.checkedOut } := by
  obtain ⟨h1, h2, h3, h4, h5, h6⟩ := hs
  rw [hb] at h1 h2 h4 h6
  have h6' : ¬ (b ∈ rest ++ s.checkedOut) ∧ (rest ++ s.checkedOut).Nodup := by
    rw [List.cons_append, List.nodup_cons] at h6
    exact h6
  refine ⟨?_, ?_, ?_, ?_, ?_, ?_⟩
  · simp only
    simp at h1
    omega
  · intro h hh
    simp only [List.mem_cons] at hh
    rcases hh with hh | hh
    · subst hh
      intro hmem
      exact h6'.1 (List.mem_append_left _ hmem)
    · intro hmem
      exact h2 h hh (by simp [hmem])
  · intro hini
    have := (h3 hini).1
    rw [hb] at this
    exact absurd this (List.cons_ne_nil _ _)
  · intro h hh
    exact h4 h (by simp [hh])
  · intro h hh
    simp only [List.mem_cons] at hh
    rcases hh with hh | hh
    · subst hh; exact h4 h (by simp)
    · exact h5 h hh
  · have hperm : (b :: (rest ++ s.checkedOut)).Perm (rest ++ b :: s.checkedOut) :=
      List.perm_middle.symm
    exact hperm.nodup (List.nodup_cons.mpr h6')

lemma getBrowser_inv (slots : Nat → Bool) {s : PoolState} (hs : PoolInv s) :
    PoolInv (getBrowser slots s).2 := by
  have hinit : PoolInv (if s.initialized then s else initPool slots s) := by
    by_cases hi : s.initialized = true
    · simpa [hi] using hs
    · simpa [hi] using initPool_inv slots hs
  unfold getBrowser
  set s1 := if s.initialized then s else initPool slots s with hs1
  by_cases hsd : s1.isShutdown = true
  · rw [if_pos hsd]
    exact hinit
  · rw [if_neg hsd]
    cases hbr : s1.browsers with
    | nil => exact hinit
    | cons b rest =>
        have := pop_inv hinit hbr
        simpa using this

/-- The right component of a Nodup append is Nodup. -/
lemma hnodupco_of {l1 l2 : List Nat} (h : (l1 ++ l2).Nodup) : l2.Nodup :=
  (List.nodup_append.mp h).2.1

lemma returnBrowser_inv {s : PoolState} (h : Nat) (hs : PoolInv s)
    (hmem : h ∈ s.checkedOut) : PoolInv (returnBrowser h s) := by
  obtain ⟨h1, h2, h3, h4, h5, h6⟩ := hs
  have hco : ∀ x ∈ s.checkedOut.erase h, x ∈ s.checkedOut := fun x hx =>
    List.mem_of_mem_erase hx
  have hnodupco : s.checkedOut.Nodup := (List.nodup_append.mp h6).2.1
  have hsub : (s.browsers ++ s.checkedOut.erase h).Nodup := by
    have hsl : (s.browsers ++ s.checkedOut.erase h).Sublist (s.browsers ++ s.checkedOut) :=
      List.Sublist.append (List.Sublist.refl _) (List.erase_sublist _ _)
    exact hsl.nodup h6
  have hinix : s.initialized = true := by
    cases hini : s.initialized
    · exact absurd ((h3 hini).2 ▸ hmem) (List.not_mem_nil h)
    · rfl
  have hnotini : s.initialized = false → False := by
    intro hini; rw [hinix] at hini; cases hini
  unfold returnBrowser
  by_cases hsd : s.isShutdown = true
  · rw [if_pos hsd]
    exact ⟨h1, fun x hx => h2 x (hco x hx), fun hini => absurd (hnotini hini) id,
      h4, fun x hx => h5 x (hco x hx), hsub⟩
  · rw [if_neg hsd]
    by_cases hlen : s.browsers.length < s.poolSize
    · rw [if_pos hlen]
      have hnotin : h ∉ s.browsers := h2 h hmem
      have hnotin2 : h ∉ s.checkedOut.erase h := List.Nodup.not_mem_erase hnodupco
      refine ⟨?_, ?_, ?_, ?_, ?_, ?_⟩
      · show (s.browsers ++ [h]).length ≤ s.poolSize
        rw [List.length_append]
        simp only [List.length_singleton]
        omega
      · intro x hx
        show x ∉ s.browsers ++ [h]
        rw [List.mem_append]
        rintro (hxb | hxh)
        · exact h2 x (hco x hx) hxb
        · rw [List.mem_singleton] at hxh
          subst hxh
          exact hnotin2 hx
      · intro hini; exact absurd (hnotini hini) id
      · intro x hx
        show x < s.nextId
        rw [List.mem_append] at hx
        rcases hx with hx | hx
        · exact h4 x hx
        · rw [List.mem_singleton] at hx
          subst hx; exact h5 x hmem
      · intro x hx; exact h5 x (hco x hx)
      · show ((s.browsers ++ [h]) ++ s.checkedOut.erase h).Nodup
        have hperm : (h :: (s.browsers ++ s.checkedOut.erase h)).Perm
            ((s.browsers ++ [h]) ++ s.checkedOut.erase h) := by
          rw [List.append_assoc, List.singleton_append]
          exact List.perm_middle.symm
        apply hperm.nodup
        rw [List.nodup_cons]
        refine ⟨?_, hsub⟩
        rw [List.mem_append]
        rintro (hx | hx)
        · exact hnotin hx
        · exact hnotin2 hx
    · rw [if_neg hlen]
      exact ⟨h1, fun x hx => h2 x (hco x hx), fun hini => absurd (hnotini hini) id,
        h4, fun x hx => h5 x (hco x hx), hsub⟩

lemma shutdownPool_inv {s : PoolState} (hs : PoolInv s) :
    PoolInv (shutdownPool s) := by
  obtain ⟨h1, h2, h3, h4, h5, h6⟩ := hs
  unfold shutdownPool
  by_cases hsd : s.isShutdown = true
  · rw [if_pos hsd]
    exact ⟨h1, h2, h3, h4, h5, h6⟩
  · rw [if_neg hsd]
    refine ⟨?_, ?_, ?_, ?_, h5, ?_⟩
    · show ([] : List Nat).length ≤ s.poolSize
      simp
    · intro x hx
      exact List.not_mem_nil x
    · intro hini
      exact ⟨rfl, (h3 hini).2⟩
    · intro x hx
      exact absurd hx (List.not_mem_nil x)
    · show (([] : List Nat) ++ s.checkedOut).Nodup
      rw [List.nil_append]
      exact hnodupco_of h6

lemma poolStep_inv {s : PoolState} (op : PoolOp) (hs : PoolInv s) :
    PoolInv (poolStep s op) := by
  cases op with
  | opInit slots => exact initPool_inv slots hs
  | opGet slots => exact getBrowser_inv slots hs
  | opRet h =>
      unfold poolStep
      by_cases hmem : h ∈ s.checkedOut
      · simpa [hmem] using returnBrowser_inv h hs hmem
      · simpa [hmem] using hs
  | opShutdown => exact shutdownPool_inv hs

lemma runPool_inv (ops : List PoolOp) {s : PoolState} (hs : PoolInv s) :
    PoolInv (runPool ops s) := by
  induction ops generalizing s with
  | nil => simpa [runPool] using hs
  | cons op rest ih =>
      simp only [runPool, List.foldl_cons]
      exact ih (poolStep_inv op hs)

lemma initPool_isShutdown (slots : Nat → Bool) (s : PoolState) :
    (initPool slots s).isShutdown = s.isShutdown := by
  unfold initPool
  by_cases hi : s.initialized = true
  · rw [if_pos hi]
  · rw [if_neg hi]

lemma shutdownPool_isShutdown (s : PoolState) :
    (shutdownPool s).isShutdown = true := by
  unfold shutdownPool
  by_cases hsd : s.isShutdown = true
  · rw [if_pos hsd]; exact hsd
  · rw [if_neg hsd]

/-- C1: for every sequence of pool operations starting from a freshly
constructed pool, the free deque never holds more than `pool_size` handles
and no handed-out handle is simultaneously in the free deque; moreover
`return_browser` on a pool whose free deque is at `pool_size` closes the
handle (logs it in `closed`) and leaves the free deque unchanged. -/
theorem pool_free_list_bounded_and_no_double_issue
    (n : Nat) (ops : List PoolOp) (s : PoolState) (h : Nat) :
    ((runPool ops (freshPool n)).browsers.length ≤ (runPool ops (freshPool n)).poolSize ∧
      ∀ b ∈ (runPool ops (freshPool n)).checkedOut,
        b ∉ (runPool ops (freshPool n)).browsers) ∧
    (s.browsers.length = s.poolSize →
      (returnBrowser h s).browsers = s.browsers ∧
      (returnBrowser h s).closed = h :: s.closed) := by
  constructor
  · have hinv := runPool_inv ops (poolInv_fresh n)
    exact ⟨hinv.1, hinv.2.1⟩
  · intro hfull
    unfold returnBrowser
    by_cases hsd : s.isShutdown = true
    · rw [if_pos hsd]
      exact ⟨rfl, rfl⟩
    · rw [if_neg hsd]
      have hnl : ¬ s.browsers.length < s.poolSize := by omega
      rw [if_neg hnl]
      exact ⟨rfl, rfl⟩

/-- Witness for C1 at a concrete operation sequence and a concrete full pool. -/
theorem pool_free_list_bounded_and_no_double_issue_witness :
    ((runPool [PoolOp.opGet (fun _ => true), PoolOp.opRet 0, PoolOp.opShutdown]
        (freshPool 2)).browsers.length ≤
      (runPool [PoolOp.opGet (fun _ => true), PoolOp.opRet 0, PoolOp.opShutdown]
        (freshPool 2)).poolSize ∧
      ∀ b ∈ (runPool [PoolOp.opGet (fun _ => true), PoolOp.opRet 0, PoolOp.opShutdown]
        (freshPool 2)).checkedOut,
        b ∉ (runPool [PoolOp.opGet (fun _ => true), PoolOp.opRet 0, PoolOp.opShutdown]
          (freshPool 2)).browsers) ∧
    ((returnBrowser 9 ⟨1, [4], true, false, 5, [], []⟩).browsers =
        (⟨1, [4], true, false, 5, [], []⟩ : PoolState).browsers ∧
      (returnBrowser 9 ⟨1, [4], true, false, 5, [], []⟩).closed =
        9 :: (⟨1, [4], true, false, 5, [], []⟩ : PoolState).closed) :=
  ⟨(pool_free_list_bounded_and_no_double_issue 2
      [PoolOp.opGet (fun _ => true), PoolOp.opRet 0, PoolOp.opShutdown]
      ⟨1, [4], true, false, 5, [], []⟩ 9).1,
   (pool_free_list_bounded_and_no_double_issue 2
      [PoolOp.opGet (fun _ => true), PoolOp.opRet 0, PoolOp.opShutdown]
      ⟨1, [4], true, false, 5, [], []⟩ 9).2 (by decide)⟩

/-- C3: after `shutdown()` has completed, a second `shutdown()` is a no-op,
`get_browser()` returns `none`, and `return_browser(h)` closes the handle
rather than re-adding it to the free deque. -/
theorem pool_shutdown_terminal (s : PoolState) (slots : Nat → Bool) (h : Nat) :
    shutdownPool (shutdownPool s) = shutdownPool s ∧
    (getBrowser slots (shutdownPool s)).1 = none ∧
    (returnBrowser h (shutdownPool s)).browsers = (shutdownPool s).browsers ∧
    (returnBrowser h (shutdownPool s)).closed = h :: (shutdownPool s).closed := by
  have hsd := shutdownPool_isShutdown s
  have idem : ∀ t : PoolState, t.isShutdown = true → shutdownPool t = t := by
    intro t ht
    unfold shutdownPool
    rw [if_pos ht]
  have hget : ∀ t : PoolState, t.isShutdown = true →
      (getBrowser slots t).1 = none := by
    intro t ht
    unfold getBrowser
    by_cases hi : t.initialized = true
    · rw [if_pos hi, if_pos ht]
    · rw [if_neg hi, if_pos (by rw [initPool_isShutdown]; exact ht)]
  have hret : ∀ t : PoolState, t.isShutdown = true →
      (returnBrowser h t).browsers = t.browsers ∧
      (returnBrowser h t).closed = h :: t.closed := by
    intro t ht
    unfold returnBrowser
    rw [if_pos ht]
    exact ⟨rfl, rfl⟩
  exact ⟨idem _ hsd, hget _ hsd, (hret _ hsd).1, (hret _ hsd).2⟩

/-!
Cache keys.  `ScreenshotAPI._get_cache_key` (lines 669-673) computes
`hashlib.md5(f"{url}_{width}_{height}".encode("utf-8")).hexdigest()`.
We embed the MD5 algorithm (RFC 1321, the algorithm implemented by
`hashlib.md5`) over byte lists with plain `Nat` arithmetic modulo `2^32`,
and the f-string as the corresponding byte list: the UTF-8 bytes of the URL
followed by an underscore byte (95), the decimal digits of the width,
another underscore byte and the decimal digits of the height.
-/

/-- Rotate a 32-bit word left by `n` bits. -/
def rotl32 (x n : Nat) : Nat :=
  (x * 2 ^ n + x / 2 ^ (32 - n)) % 4294967296

/-- The 64 MD5 sine-derived constants. -/
def kTable : List Nat :=
  [0xd76aa478, 0xe8c7b756, 0x242070db, 0xc1bdceee,
   0xf57c0faf, 0x4787c62a, 0xa8304613, 0xfd469501,
   0x698098d8, 0x8b44f7af, 0xffff5bb1, 0x895cd7be,
   0x6b901122, 0xfd987193, 0xa679438e, 0x49b40821,
   0xf61e2562, 0xc040b340, 0x265e5a51, 0xe9b6c7aa,
   0xd62f105d, 0x02441453, 0xd8a1e681, 0xe7d3fbc8,
   0x21e1cde6, 0xc33707d6, 0xf4d50d87, 0x455a14ed,
   0xa9e3e905, 0xfcefa3f8, 0x676f02d9, 0x8d2a4c8a,
   0xfffa3942, 0x8771f681, 0x6d9d6122, 0xfde5380c,
   0xa4beea44, 0x4bdecfa9, 0xf6bb4b60, 0xbebfbc70,
   0x289b7ec6, 0xeaa127fa, 0xd4ef3085, 0x04881d05,
   0xd9d4d039, 0xe6db99e5, 0x1fa27cf8, 0xc4ac5665,
   0xf4292244, 0x432aff97, 0xab9423a7, 0xfc93a039,
   0x655b59c3, 0x8f0ccc92, 0xffeff47d, 0x85845dd1,
   0x6fa87e4f, 0xfe2ce6e0, 0xa3014314, 0x4e0811a1,
   0xf7537e82, 0xbd3af235, 0x2ad7d2bb, 0xeb86d391]

/-- The 64 MD5 per-round left-rotation amounts. -/
def sTable : List Nat :=
  [7, 12, 17, 22, 7, 12, 17, 22, 7, 12, 17, 22, 7, 12, 17, 22,
   5, 9, 14, 20, 5, 9, 14, 20, 5, 9, 14, 20, 5, 9, 14, 20,
   4, 11, 16, 23, 4, 11, 16, 23, 4, 11, 16, 23, 4, 11, 16, 23,
   6, 10, 15, 21, 6, 10, 15, 21, 6, 10, 15, 21, 6, 10, 15, 21]

/-- Little-endian 32-bit word `g` of a 64-byte chunk. -/
def chunkWord (chunk : List Nat) (g : Nat) : Nat :=
  chunk.getD (4 * g) 0 + 256 * chunk.getD (4 * g + 1) 0 +
    65536 * chunk.getD (4 * g + 2) 0 + 16777216 * chunk.getD (4 * g + 3) 0

/-- One of the 64 MD5 mixing steps on the running `(a, b, c, d)` state. -/
def md5Step (chunk : List Nat) (st : Nat × Nat × Nat × Nat) (i : Nat) :
    Nat × Nat × Nat × Nat :=
  let a := st.1
  let b := st.2.1
  let c := st.2.2.1
  let d := st.2.2.2
  let f :=
    if i < 16 then (b &&& c) ||| ((4294967295 - b) &&& d)
    else if i < 32 then (d &&& b) ||| ((4294967295 - d) &&& c)
    else if i < 48 then b ^^^ c ^^^ d
    else c ^^^ (b ||| (4294967295 - d))
  let g :=
    if i < 16 then i
    else if i < 32 then (5 * i + 1) % 16
    else if i < 48 then (3 * i + 5) % 16
    else (7 * i) % 16
  let tmp := (a + f + kTable.getD i 0 + chunkWord chunk g) % 4294967296
  (d, (b + rotl32 tmp (sTable.getD i 0)) % 4294967296, b, c)

/-- Absorb one 64-byte chunk into the MD5 state. -/
def md5Chunk (st : Nat × Nat × Nat × Nat) (chunk : List Nat) :
    Nat × Nat × Nat × Nat :=
  let r := (List.range 64).foldl (md5Step chunk) st
  ((st.1 + r.1) % 4294967296, (st.2.1 + r.2.1) % 4294967296,
   (st.2.2.1 + r.2.2.1) % 4294967296, (st.2.2.2 + r.2.2.2) % 4294967296)

/-- MD5 padding: a 0x80 byte, zeros up to 56 mod 64, then the bit length as
a 64-bit little-endian number. -/
def md5Pad (msg : List Nat) : List Nat :=
  msg ++ 128 :: List.replicate ((119 - msg.length % 64) % 64) 0 ++
    (List.range 8).map (fun i => 8 * msg.length / 2 ^ (8 * i) % 256)

/-- Split a byte list into 64-byte chunks (fuel-driven structural recursion;
any fuel of at least the list length is enough). -/
def chunksOf64 : Nat → List Nat → List (List Nat)
  | 0, _ => []
  | _, [] => []
  | fuel + 1, l => l.take 64 :: chunksOf64 fuel (l.drop 64)

/-- The four 32-bit MD5 state words of a message. -/
def md5Words (msg : List Nat) : Nat × Nat × Nat × Nat :=
  let padded := md5Pad msg
  (chunksOf64 padded.length padded).foldl md5Chunk
    (0x67452301, 0xefcdab89, 0x98badcfe, 0x10325476)

/-- Four little-endian bytes of a 32-bit word. -/
def le4 (x : Nat) : List Nat :=
  [x % 256, x / 256 % 256, x / 65536 % 256, x / 16777216 % 256]

/-- The 16-byte MD5 digest of a message. -/
def md5Bytes (msg : List Nat) : List Nat :=
  let w := md5Words msg
  le4 w.1 ++ le4 w.2.1 ++ le4 w.2.2.1 ++ le4 w.2.2.2

/-- The MD5 digest read as a single 128-bit number (base-2^32 words). -/
def md5Nat (msg : List Nat) : Nat :=
  let w := md5Words msg
  w.1 + 4294967296 * (w.2.1 + 4294967296 * (w.2.2.1 + 4294967296 * w.2.2.2))

/-- Lower-case hex character of a nibble, as `hexdigest` prints. -/
def hexChar (d : Nat) : Char :=
  if d < 10 then Char.ofNat (48 + d) else Char.ofNat (87 + d)

/-- Hex string of a byte list (`hexdigest`). -/
def hexOfBytes (bs : List Nat) : String :=
  ⟨(bs.map (fun b => [hexChar (b / 16), hexChar (b % 16)])).flatten⟩

/-- Decimal digit bytes of a natural number, most significant first
(the bytes of Python `str(n)`; fuel-driven, `n + 1` fuel always suffices). -/
def natDecimal : Nat → Nat → List Nat
  | 0, _ => []
  | fuel + 1, n =>
      if n < 10 then [48 + n] else natDecimal fuel (n / 10) ++ [48 + n % 10]

/-- UTF-8 bytes of a string; URL and digit content here is ASCII, for which
the code-point list is the UTF-8 byte list. -/
def strBytes (s : String) : List Nat :=
  s.data.map Char.toNat

/-- The bytes of `f"{url}_{width}_{height}".encode("utf-8")` (line 672). -/
def keyData (url : String) (w h : Nat) : List Nat :=
  strBytes url ++ 95 :: natDecimal (w + 1) w ++ 95 :: natDecimal (h + 1) h

/-- `ScreenshotAPI._get_cache_key` (lines 669-673): the MD5 hexdigest of the
key data. -/
def cacheKey (url : String) (w h : Nat) : String :=
  hexOfBytes (md5Bytes (keyData url w h))

/-- A screenshot request as the Facade receives it (url, dimensions, and the
rendering options that do NOT enter the cache key). -/
structure ScreenshotReq where
  url : String
  width : Nat
  height : Nat
  full_page : Bool
  quality : Nat
  format : String
  use_cache : Bool

/-- The cache key the Facade derives for a request: `_get_cache_key` is
called with only `url`, `width` and `height` (lines 565, 599). -/
def reqCacheKey (r : ScreenshotReq) : String :=
  cacheKey r.url r.width r.height

lemma md5Chunk_bounded (st : Nat × Nat × Nat × Nat) (c : List Nat) :
    (md5Chunk st c).1 < 4294967296 ∧ (md5Chunk st c).2.1 < 4294967296 ∧
    (md5Chunk st c).2.2.1 < 4294967296 ∧ (md5Chunk st c).2.2.2 < 4294967296 := by
  unfold md5Chunk
  refine ⟨?_, ?_, ?_, ?_⟩ <;> exact Nat.mod_lt _ (by norm_num)

lemma foldl_md5Chunk_bounded (cs : List (List Nat)) (st : Nat × Nat × Nat × Nat)
    (h : st.1 < 4294967296 ∧ st.2.1 < 4294967296 ∧
         st.2.2.1 < 4294967296 ∧ st.2.2.2 < 4294967296) :
    (cs.foldl md5Chunk st).1 < 4294967296 ∧
    (cs.foldl md5Chunk st).2.1 < 4294967296 ∧
    (cs.foldl md5Chunk st).2.2.1 < 4294967296 ∧
    (cs.foldl md5Chunk st).2.2.2 < 4294967296 := by
  induction cs generalizing st with
  | nil => exact h
  | cons c cs ih =>
      rw [List.foldl_cons]
      exact ih _ (md5Chunk_bounded st c)

lemma md5Words_bounded (msg : List Nat) :
    (md5Words msg).1 < 4294967296 ∧ (md5Words msg).2.1 < 4294967296 ∧
    (md5Words msg).2.2.1 < 4294967296 ∧ (md5Words msg).2.2.2 < 4294967296 := by
  unfold md5Words
  exact foldl_md5Chunk_bounded _ _ (by norm_num)

lemma md5Nat_spec (msg : List Nat) :
    md5Nat msg = (md5Words msg).1 + 4294967296 * ((md5Words msg).2.1 +
      4294967296 * ((md5Words msg).2.2.1 + 4294967296 * (md5Words msg).2.2.2)) :=
  rfl

lemma md5Nat_lt (msg : List Nat) : md5Nat msg < 2 ^ 128 := by
  obtain ⟨h1, h2, h3, h4⟩ := md5Words_bounded msg
  rw [md5Nat_spec]
  have hp : (2 : Nat) ^ 128 = 340282366920938463463374607431768211456 := by norm_num
  rw [hp]
  omega

lemma md5Words_eq_of_md5Nat_eq {m1 m2 : List Nat}
    (h : md5Nat m1 = md5Nat m2) : md5Words m1 = md5Words m2 := by
  obtain ⟨a1, b1, c1, d1⟩ := md5Words_bounded m1
  obtain ⟨a2, b2, c2, d2⟩ := md5Words_bounded m2
  rw [md5Nat_spec, md5Nat_spec] at h
  have e1 : (md5Words m1).1 = (md5Words m2).1 := by omega
  have e2 : (md5Words m1).2.1 = (md5Words m2).2.1 := by omega
  have e3 : (md5Words m1).2.2.1 = (md5Words m2).2.2.1 := by omega
  have e4 : (md5Words m1).2.2.2 = (md5Words m2).2.2.2 := by omega
  exact Prod.ext e1 (Prod.ext e2 (Prod.ext e3 e4))

lemma cacheKey_eq_of_md5Nat_eq {u : String} {w1 h1 w2 h2 : Nat}
    (h : md5Nat (keyData u w1 h1) = md5Nat (keyData u w2 h2)) :
    cacheKey u w1 h1 = cacheKey u w2 h2 := by
  have hw := md5Words_eq_of_md5Nat_eq h
  unfold cacheKey md5Bytes
  rw [hw]

/-- C4 counterexample: the claim that any two requests with the same URL but
different width or height always get distinct cache keys is false for the
128-bit MD5 key: infinitely many (width, height) pairs map into the finite
set of 128-bit digests, so some two distinct pairs share a key. -/
theorem cache_key_distinctness_fails :
    ¬ ∀ (url : String) (w1 h1 w2 h2 : Nat),
        (w1, h1) ≠ (w2, h2) → cacheKey url w1 h1 ≠ cacheKey url w2 h2 := by
  intro hclaim
  let f : Nat × Nat → Fin (2 ^ 128) :=
    fun p => ⟨md5Nat (keyData "u" p.1 p.2), md5Nat_lt _⟩
  obtain ⟨p, q, hne, heq⟩ := Finite.exists_ne_map_eq_of_infinite f
  have hval : md5Nat (keyData "u" p.1 p.2) = md5Nat (keyData "u" q.1 q.2) :=
    congrArg Fin.val heq
  have hpair : (p.1, p.2) ≠ (q.1, q.2) := by
    simpa using hne
  exact hclaim "u" p.1 p.2 q.1 q.2 hpair (cacheKey_eq_of_md5Nat_eq hval)

lemma natDecimal_digit_le {fuel : Nat} :
    ∀ {n : Nat}, ∀ b ∈ natDecimal fuel n, b ≤ 57 := by
  induction fuel with
  | zero =>
      intro n b hb
      exact absurd hb (List.not_mem_nil b)
  | succ fuel ih =>
      intro n b hb
      unfold natDecimal at hb
      by_cases h10 : n < 10
      · rw [if_pos h10] at hb
        rw [List.mem_singleton] at hb
        omega
      · rw [if_neg h10] at hb
        rw [List.mem_append] at hb
        rcases hb with hb | hb
        · exact ih b hb
        · rw [List.mem_singleton] at hb
          have : n % 10 < 10 := Nat.mod_lt _ (by norm_num)
          omega

/-- Decode decimal digit bytes back to the number (base-10 accumulator). -/
def decDigits (bs : List Nat) : Nat :=
  bs.foldl (fun acc b => 10 * acc + (b - 48)) 0

lemma decDigits_append_digit (xs : List Nat) (y : Nat) :
    decDigits (xs ++ [y]) = 10 * decDigits xs + (y - 48) := by
  unfold decDigits
  rw [List.foldl_append]
  rfl

lemma decDigits_natDecimal {fuel : Nat} :
    ∀ {n : Nat}, n < 10 ^ fuel → decDigits (natDecimal fuel n) = n := by
  induction fuel with
  | zero =>
      intro n hn
      interval_cases n
      rfl
  | succ fuel ih =>
      intro n hn
      unfold natDecimal
      by_cases h10 : n < 10
      · rw [if_pos h10]
        unfold decDigits
        simp only [List.foldl_cons, List.foldl_nil]
        omega
      · rw [if_neg h10]
        rw [decDigits_append_digit]
        have hdiv : n / 10 < 10 ^ fuel := by
          rw [Nat.div_lt_iff_lt_mul (by norm_num)]
          rw [pow_succ] at hn
          exact hn
        rw [ih hdiv]
        omega

lemma natDecimal_inj {n m : Nat}
    (h : natDecimal (n + 1) n = natDecimal (m + 1) m) : n = m := by
  have hn : n < 10 ^ (n + 1) :=
    lt_of_lt_of_le (Nat.lt_pow_self (by norm_num) n)
      (Nat.pow_le_pow_right (by norm_num) (Nat.le_succ n))
  have hm : m < 10 ^ (m + 1) :=
    lt_of_lt_of_le (Nat.lt_pow_self (by norm_num) m)
      (Nat.pow_le_pow_right (by norm_num) (Nat.le_succ m))
  have := congrArg decDigits h
  rw [decDigits_natDecimal hn, decDigits_natDecimal hm] at this
  exact this

lemma append_sep_inj :
    ∀ (xs1 xs2 : List Nat) {ys1 ys2 : List Nat},
      (∀ b ∈ xs1, b ≠ 95) → (∀ b ∈ xs2, b ≠ 95) →
      xs1 ++ 95 :: ys1 = xs2 ++ 95 :: ys2 → xs1 = xs2 ∧ ys1 = ys2 := by
  intro xs1
  induction xs1 with
  | nil =>
      intro xs2 ys1 ys2 _ h2 heq
      cases xs2 with
      | nil =>
          rw [List.nil_append, List.nil_append] at heq
          exact ⟨rfl, (List.cons.inj heq).2⟩
      | cons x xs =>
          rw [List.nil_append, List.cons_append] at heq
          have hx : (95 : Nat) = x := (List.cons.inj heq).1
          exact absurd hx.symm (h2 x (List.mem_cons_self x xs))
  | cons x xs ih =>
      intro xs2 ys1 ys2 h1 h2 heq
      cases xs2 with
      | nil =>
          rw [List.cons_append, List.nil_append] at heq
          have hx : x = 95 := (List.cons.inj heq).1
          exact absurd hx (h1 x (List.mem_cons_self x xs))
      | cons y ys =>
          rw [List.cons_append, List.cons_append] at heq
          have hx : x = y := (List.cons.inj heq).1
          have htl := (List.cons.inj heq).2
          have hrec := ih ys (fun b hb => h1 b (List.mem_cons_of_mem x hb))
            (fun b hb => h2 b (List.mem_cons_of_mem y hb)) htl
          exact ⟨by rw [hx, hrec.1], hrec.2⟩

/-- For a fixed URL, the pre-hash key strings of distinct (width, height)
pairs are distinct: the digit runs contain no underscore byte, so the two
separators are unambiguous. -/
lemma keyData_inj {url : String} {w1 h1 w2 h2 : Nat}
    (heq : keyData url w1 h1 = keyData url w2 h2) : w1 = w2 ∧ h1 = h2 := by
  unfold keyData at heq
  rw [List.append_assoc, List.append_assoc] at heq
  have htl : ((95 : Nat) :: natDecimal (w1 + 1) w1) ++ 95 :: natDecimal (h1 + 1) h1 =
      ((95 : Nat) :: natDecimal (w2 + 1) w2) ++ 95 :: natDecimal (h2 + 1) h2 :=
    List.append_cancel_left heq
  rw [List.cons_append, List.cons_append] at htl
  have htl2 := (List.cons.inj htl).2
  have hd1 : ∀ b ∈ natDecimal (w1 + 1) w1, b ≠ 95 := by
    intro b hb
    have := natDecimal_digit_le b hb
    omega
  have hd2 : ∀ b ∈ natDecimal (w2 + 1) w2, b ≠ 95 := by
    intro b hb
    have := natDecimal_digit_le b hb
    omega
  obtain ⟨hw, hh⟩ := append_sep_inj _ _ hd1 hd2 htl2
  exact ⟨natDecimal_inj hw, natDecimal_inj hh⟩

/-- C4 amended: the cache key is derived only from (url, width, height) —
quality, format and full_page never enter it — the digest is 128 bits, and
for a fixed URL two requests differing in width or height feed distinct
pre-hash key strings to MD5 (so their keys differ unless MD5 itself
collides on them). -/
theorem cache_key_props :
    (∀ r1 r2 : ScreenshotReq, r1.url = r2.url → r1.width = r2.width →
      r1.height = r2.height → reqCacheKey r1 = reqCacheKey r2) ∧
    (∀ (url : String) (w h : Nat), md5Nat (keyData url w h) < 2 ^ 128) ∧
    (∀ (url : String) (w1 h1 w2 h2 : Nat),
      keyData url w1 h1 = keyData url w2 h2 → w1 = w2 ∧ h1 = h2) := by
  refine ⟨?_, ?_, ?_⟩
  · intro r1 r2 hu hw hh
    unfold reqCacheKey
    rw [hu, hw, hh]
  · intro url w h
    exact md5Nat_lt _
  · intro url w1 h1 w2 h2 heq
    exact keyData_inj heq

/-- Witness for C4's amended statement at concrete requests: two requests
sharing (url, width, height) but differing in quality, format and full_page
share a key, and equal key strings force equal dimensions. -/
theorem cache_key_props_witness :
    reqCacheKey ⟨"https://example.com", 300, 200, false, 90, "jpeg", true⟩ =
      reqCacheKey ⟨"https://example.com", 300, 200, true, 10, "png", false⟩ ∧
    (300 = 300 ∧ 200 = 200) :=
  ⟨cache_key_props.1 ⟨"https://example.com", 300, 200, false, 90, "jpeg", true⟩
      ⟨"https://example.com", 300, 200, true, 10, "png", false⟩ rfl rfl rfl,
   cache_key_props.2.2 "https://example.com" 300 200 300 200 rfl⟩

/-!
Cache store.  The cache directory is modelled as a list of files, each with
a name (the hex key), a modification time and its byte content (bytes are
`List Nat`).  `list.sort(key=mtime)` is Python's stable sort; we use a
stable insertion sort by mtime, and only permutation- and sortedness-facts
about it, so any stable sort gives the same theorems.
-/

/-- One cached file: `{cache_key}.jpg` with its mtime and content. -/
structure CacheFile where
  name : String
  mtime : Nat
  data : List Nat
  deriving Repr, DecidableEq

/-- Insert a file into an mtime-sorted list, after any file of equal mtime
(stability, as in Python's sort). -/
def insertFile (f : CacheFile) : List CacheFile → List CacheFile
  | [] => [f]
  | g :: gs => if g.mtime ≤ f.mtime then g :: insertFile f gs else f :: g :: gs

/-- Stable sort of the cache listing by modification time
(`cache_files.sort(key=lambda x: x.stat().st_mtime)`, line 705). -/
def sortByMtime : List CacheFile → List CacheFile
  | [] => []
  | f :: fs => insertFile f (sortByMtime fs)

/-- `ScreenshotAPI._cleanup_cache` (lines 702-710): when the listing exceeds
`max_cache_size`, sort by mtime and delete the files in the slice
`cache_files[: -max_cache_size]`, keeping the newest `max_cache_size`.
Python slice semantics: for `max_cache_size = 0` the slice `[:-0]` is
`[:0]`, the EMPTY slice, so nothing is deleted and the directory stays
above the limit. -/
def cleanupCache (maxSize : Nat) (files : List CacheFile) : List CacheFile :=
  if files.length > maxSize then
    if maxSize = 0 then files
    else (sortByMtime files).drop (files.length - maxSize)
  else files

/-- Writing `open(cache_file, "wb")` : overwrite the file of that name with
fresh content and mtime `now`, or create it at the end of the listing. -/
def upsert (files : List CacheFile) (key : String) (data : List Nat)
    (now : Nat) : List CacheFile :=
  if files.any (fun f => f.name = key) then
    files.map (fun f => if f.name = key then ⟨key, now, data⟩ else f)
  else files ++ [⟨key, now, data⟩]

/-- `ScreenshotAPI._cache_screenshot` (lines 690-700): write the bytes under
the request's key, then run the eviction sweep. -/
def cacheScreenshot (maxSize now : Nat) (files : List CacheFile)
    (url : String) (w h : Nat) (data : List Nat) : List CacheFile :=
  cleanupCache maxSize (upsert files (cacheKey url w h) data now)

lemma insertFile_perm (f : CacheFile) (l : List CacheFile) :
    (insertFile f l).Perm (f :: l) := by
  induction l with
  | nil => exact List.Perm.refl _
  | cons g gs ih =>
      unfold insertFile
      by_cases hle : g.mtime ≤ f.mtime
      · rw [if_pos hle]
        exact (List.Perm.cons g ih).trans (List.Perm.swap f g gs)
      · rw [if_neg hle]

lemma sortByMtime_perm (l : List CacheFile) : (sortByMtime l).Perm l := by
  induction l with
  | nil => exact List.Perm.refl _
  | cons f fs ih =>
      unfold sortByMtime
      exact (insertFile_perm f (sortByMtime fs)).trans (List.Perm.cons f ih)

/-- Sortedness by mtime as a pairwise relation. -/
def MtimeSorted (l : List CacheFile) : Prop :=
  l.Pairwise (fun a b => a.mtime ≤ b.mtime)

lemma mem_insertFile {x f : CacheFile} {l : List CacheFile}
    (hx : x ∈ insertFile f l) : x = f ∨ x ∈ l := by
  have := (insertFile_perm f l).mem_iff.mp hx
  simpa using this

lemma insertFile_sorted (f : CacheFile) {l : List CacheFile}
    (hl : MtimeSorted l) : MtimeSorted (insertFile f l) := by
  induction l with
  | nil =>
      unfold insertFile MtimeSorted
      exact List.pairwise_singleton _ f
  | cons g gs ih =>
      unfold insertFile
      rw [MtimeSorted, List.pairwise_cons] at hl
      obtain ⟨hg, hgs⟩ := hl
      by_cases hle : g.mtime ≤ f.mtime
      · rw [if_pos hle]
        rw [MtimeSorted, List.pairwise_cons]
        refine ⟨?_, ih hgs⟩
        intro x hx
        rcases mem_insertFile hx with hx | hx
        · rw [hx]; exact hle
        · exact hg x hx
      · rw [if_neg hle]
        rw [MtimeSorted, List.pairwise_cons]
        refine ⟨?_, ?_⟩
        · intro x hx
          rcases List.mem_cons.mp hx with hx | hx
          · rw [hx]; omega
          · have := hg x hx
            omega
        · rw [List.pairwise_cons]
          exact ⟨hg, hgs⟩

lemma sortByMtime_sorted (l : List CacheFile) : MtimeSorted (sortByMtime l) := by
  induction l with
  | nil => exact List.Pairwise.nil
  | cons f fs ih =>
      unfold sortByMtime
      exact insertFile_sorted f ih

lemma upsert_length_fresh {files : List CacheFile} {key : String}
    {data : List Nat} {now : Nat}
    (hfresh : ∀ f ∈ files, f.name ≠ key) :
    upsert files key data now = files ++ [⟨key, now, data⟩] := by
  unfold upsert
  have hno : ¬ (files.any (fun f => f.name = key) = true) := by
    intro hc
    rw [List.any_eq_true] at hc
    obtain ⟨f, hf, hp⟩ := hc
    exact hfresh f hf (of_decide_eq_true hp)
  rw [if_neg hno]

/-- C5 counterexample: with `max_cache_size = 0`, a completed store leaves
the directory above the limit: `cache_files[: -0]` is the empty slice, the
sweep deletes nothing, and the store of one entry into an empty directory
(capacity 0) leaves one file instead of evicting one. -/
theorem cache_store_bound_fails_at_zero :
    (cacheScreenshot 0 3 [] "u" 1 2 [9]).length = 1 ∧
    ¬ (cacheScreenshot 0 3 [] "u" 1 2 [9]).length ≤ 0 := by
  have h1 : (cacheScreenshot 0 3 [] "u" 1 2 [9]).length = 1 := rfl
  exact ⟨h1, by rw [h1]; omega⟩

/-- C5 amended: for a positive `max_cache_size`, after every completed cache
store the directory holds at most `max_cache_size` files, and storing a
fresh entry when the directory is exactly at capacity deletes exactly one
file — one of minimal modification time — leaving the rest (as a multiset)
intact.  (At `max_cache_size = 0` the sweep's empty slice deletes nothing.) -/
theorem cache_store_bounded_evicts_oldest
    (maxSize now : Nat) (files : List CacheFile) (url : String) (w h : Nat)
    (data : List Nat) (hpos : 0 < maxSize) :
    (cacheScreenshot maxSize now files url w h data).length ≤ maxSize ∧
    (files.length = maxSize → (∀ f ∈ files, f.name ≠ cacheKey url w h) →
      (cacheScreenshot maxSize now files url w h data).length = maxSize ∧
      ∃ evicted,
        evicted ∈ upsert files (cacheKey url w h) data now ∧
        (∀ g ∈ upsert files (cacheKey url w h) data now,
          evicted.mtime ≤ g.mtime) ∧
        (cacheScreenshot maxSize now files url w h data).Perm
          ((upsert files (cacheKey url w h) data now).erase evicted)) := by
  have hz : ¬ maxSize = 0 := by omega
  constructor
  · unfold cacheScreenshot cleanupCache
    by_cases hlen : (upsert files (cacheKey url w h) data now).length > maxSize
    · rw [if_pos hlen, if_neg hz]
      rw [List.length_drop]
      have hperm := sortByMtime_perm (upsert files (cacheKey url w h) data now)
      rw [hperm.length_eq]
      omega
    · rw [if_neg hlen]
      omega
  · intro hcap hfresh
    have hup : upsert files (cacheKey url w h) data now =
        files ++ [⟨cacheKey url w h, now, data⟩] := upsert_length_fresh hfresh
    have hlen : (upsert files (cacheKey url w h) data now).length = maxSize + 1 := by
      rw [hup, List.length_append, List.length_singleton, hcap]
    have hgt : (upsert files (cacheKey url w h) data now).length > maxSize := by
      omega
    have hres : cacheScreenshot maxSize now files url w h data =
        (sortByMtime (upsert files (cacheKey url w h) data now)).drop 1 := by
      unfold cacheScreenshot cleanupCache
      rw [if_pos hgt, if_neg hz, hlen]
      congr 1
      omega
    have hperm := sortByMtime_perm (upsert files (cacheKey url w h) data now)
    have hsorted := sortByMtime_sorted (upsert files (cacheKey url w h) data now)
    have hsortlen : (sortByMtime (upsert files (cacheKey url w h) data now)).length
        = maxSize + 1 := by
      rw [hperm.length_eq, hlen]
    cases hL : sortByMtime (upsert files (cacheKey url w h) data now) with
    | nil => rw [hL] at hsortlen; exact absurd hsortlen (by simp)
    | cons e rest =>
        rw [hL] at hperm hsorted hsortlen
        constructor
        · rw [hres, hL]
          simp only [List.drop_one, List.tail_cons]
          simp at hsortlen
          omega
        · refine ⟨e, ?_, ?_, ?_⟩
          · exact hperm.mem_iff.mp (List.mem_cons_self e rest)
          · intro g hg
            have hgmem : g ∈ e :: rest := hperm.symm.mem_iff.mp hg
            rcases List.mem_cons.mp hgmem with hx | hx
            · rw [hx]
            · rw [MtimeSorted, List.pairwise_cons] at hsorted
              exact hsorted.1 g hx
          · rw [hres, hL]
            simp only [List.drop_one, List.tail_cons]
            have hup_perm : (upsert files (cacheKey url w h) data now).erase e
                |>.Perm ((e :: rest).erase e) := (hperm.symm).erase e
            rw [List.erase_cons_head] at hup_perm
            exact hup_perm.symm

lemma md5Bytes_length (msg : List Nat) : (md5Bytes msg).length = 16 := rfl

lemma hexOfBytes_length (bs : List Nat) :
    (hexOfBytes bs).length = 2 * bs.length := by
  show ((bs.map fun b => [hexChar (b / 16), hexChar (b % 16)]).flatten).length =
    2 * bs.length
  induction bs with
  | nil => rfl
  | cons b bs ih =>
      rw [List.map_cons, List.flatten_cons, List.length_append, ih]
      simp only [List.length_cons, List.length_nil, List.length_cons]
      omega

/-- Every cache key is a 32-character hex digest. -/
lemma cacheKey_length (url : String) (w h : Nat) :
    (cacheKey url w h).length = 32 := by
  unfold cacheKey
  rw [hexOfBytes_length, md5Bytes_length]

/-- Witness for C5's amended statement at a concrete store: a one-file
directory at capacity 1; the store writes the new entry and the sweep
evicts exactly the older file. -/
theorem cache_store_bounded_evicts_oldest_witness :
    (cacheScreenshot 1 7 [⟨"a", 5, [1]⟩] "u" 1 2 [9]).length ≤ 1 ∧
    ((cacheScreenshot 1 7 [⟨"a", 5, [1]⟩] "u" 1 2 [9]).length = 1 ∧
      ∃ evicted,
        evicted ∈ upsert [⟨"a", 5, [1]⟩] (cacheKey "u" 1 2) [9] 7 ∧
        (∀ g ∈ upsert [⟨"a", 5, [1]⟩] (cacheKey "u" 1 2) [9] 7,
          evicted.mtime ≤ g.mtime) ∧
        (cacheScreenshot 1 7 [⟨"a", 5, [1]⟩] "u" 1 2 [9]).Perm
          ((upsert [⟨"a", 5, [1]⟩] (cacheKey "u" 1 2) [9] 7).erase evicted)) :=
  ⟨(cache_store_bounded_evicts_oldest 1 7 [⟨"a", 5, [1]⟩] "u" 1 2 [9]
      (by omega)).1,
   (cache_store_bounded_evicts_oldest 1 7 [⟨"a", 5, [1]⟩] "u" 1 2 [9]
      (by omega)).2 rfl
     (by
       intro f hf
       rw [List.mem_singleton] at hf
       subst hf
       intro hc
       have hlen := congrArg String.length hc
       rw [cacheKey_length] at hlen
       exact absurd hlen (by decide))⟩

/-!
Renderer and Facade.  Interaction with the browser, the page and the PIL
image library is captured by a per-call environment: which awaited steps
raise, and which bytes a successful capture produces.  PIL placeholder
drawing is deterministic and total (and `_generate_placeholder_sync`
additionally guards itself with a hard-coded minimal JPEG, lines 513-516),
so placeholder generation is embedded as a total function whose output
starts with the JPEG marker bytes and records the drawn dimensions.
-/

/-- The `urlparse(url).netloc` of an absolute URL (stdlib behaviour for the
common `scheme://host/...` shape used by this service). -/
def netloc (url : String) : String :=
  match url.splitOn "://" with
  | _ :: rest :: _ => ((rest.splitOn "/").headD "")
  | _ => ""

/-- Abstraction of PIL saving an RGB (w × h) image with centred `text` as a
JPEG of the given quality (lines 716-741): marker bytes, the drawn
dimensions and content. -/
def renderJpeg (w h : Nat) (text : String) (q : Nat) : List Nat :=
  255 :: 216 :: w :: h :: q :: strBytes text

/-- Read the pixel dimensions back out of an encoded image. -/
def decodeJpegDims (b : List Nat) : Option (Nat × Nat) :=
  match b with
  | 255 :: 216 :: w :: h :: _ => some (w, h)
  | _ => none

/-- `ScreenshotAPI._generate_placeholder` (lines 712-741): a (w × h) JPEG at
quality 85 showing "Preview" over the URL's domain. -/
def generatePlaceholder (url : String) (w h : Nat) : List Nat :=
  renderJpeg w h ("Preview\n" ++ netloc url) 85

/-- `WebsiteScreenshotService._generate_placeholder_sync` (lines 482-516):
the same drawing; its internal catch-all (returning a fixed minimal JPEG)
makes it total. -/
def generatePlaceholderSync (url : String) (w h : Nat) : List Nat :=
  renderJpeg w h ("Preview\n" ++ netloc url) 85

/-- Outcome environment for one render attempt. -/
structure RenderEnv where
  newPageFails : Bool
  navFails : Bool
  shot : List Nat

/-- `ScreenshotAPI._take_screenshot_with_browser` (lines 623-663):
`browser.new_page()` (line 627) sits before the try, so its failure
propagates; any navigation/capture failure inside the try is converted to a
placeholder (line 658). -/
def takeScreenshotWithBrowser (env : RenderEnv) (url : String) (w h : Nat) :
    Except Unit (List Nat) :=
  if env.newPageFails then .error ()
  else if env.navFails then .ok (generatePlaceholder url w h)
  else .ok env.shot

/-- `WebsiteScreenshotService.take_screenshot` (lines 319-406), the bare
renderer: `new_page` (line 355) sits before the try; navigation/capture
failures are converted to `_generate_placeholder_sync` bytes (line 398),
re-raising only if placeholder generation itself fails — which the sync
generator's hard-coded fallback prevents. -/
def bareTakeScreenshot (env : RenderEnv) (url : String) (w h : Nat) :
    Except Unit (List Nat) :=
  if env.newPageFails then .error ()
  else if env.navFails then .ok (generatePlaceholderSync url w h)
  else .ok env.shot

/-- Per-call environment of `ScreenshotAPI.get_screenshot`. -/
structure FacadeEnv where
  slots : Nat → Bool
  poolGetRaises : Bool
  fallbackStartFails : Bool
  render : RenderEnv
  cacheReadFails : Bool
  cacheWriteFails : Bool
  now : Nat

/-- Mutable state visible to the Facade: the cache directory, the shared
pool, and a ghost renderer-invocation counter (the call-count spy). -/
structure ApiState where
  cache : List CacheFile
  pool : PoolState
  renders : Nat

/-- Result of one `get_screenshot` call, with ghost flags recording whether
the transient fallback service was started and stopped. -/
structure CallResult where
  out : Except Unit (List Nat)
  st : ApiState
  transientStarted : Bool
  transientStopped : Bool

/-- `ScreenshotAPI._get_cached_screenshot` (lines 675-688): read the key's
file if it exists; a read failure is caught and treated as a miss. -/
def getCachedScreenshot (readFails : Bool) (cache : List CacheFile)
    (url : String) (w h : Nat) : Option (List Nat) :=
  match cache.find? (fun f => f.name = cacheKey url w h) with
  | some f => if readFails then none else some f.data
  | none => none

/-- The `if use_cache: ... if cached:` prologue of `get_screenshot`
(lines 564-568); note Python truthiness: empty bytes count as a miss. -/
def facadeCacheHit (env : FacadeEnv) (cache : List CacheFile) (url : String)
    (w h : Nat) (useCache : Bool) : Option (List Nat) :=
  if useCache then
    match getCachedScreenshot env.cacheReadFails cache url w h with
    | some d => if d = [] then none else some d
    | none => none
  else none

/-- The `if use_cache: self._cache_screenshot(...)` store step (lines
598-599); `_cache_screenshot` catches its own write failures. -/
def storeIfRequested (env : FacadeEnv) (maxSize : Nat) (cache : List CacheFile)
    (url : String) (w h : Nat) (useCache : Bool) (shot : List Nat) :
    List CacheFile :=
  if useCache && !env.cacheWriteFails then
    cacheScreenshot maxSize env.now cache url w h shot
  else cache

/-- `ScreenshotAPI.get_screenshot` (lines 543-621): cache check, pool
acquisition, pooled render with return-to-pool (or the transient fallback
when the pool is empty), cache store, and the catch-all placeholder
(lines 603-605).  The `finally` block (lines 606-621) returns a still-held
pooled browser; on the success path line 596 clears the local first. -/
def getScreenshot (env : FacadeEnv) (maxSize : Nat) (st : ApiState)
    (url : String) (w h : Nat) (useCache : Bool) : CallResult :=
  match facadeCacheHit env st.cache url w h useCache with
  | some d => ⟨.ok d, st, false, false⟩
  | none =>
      if env.poolGetRaises then
        ⟨.ok (generatePlaceholder url w h), st, false, false⟩
      else
        match getBrowser env.slots st.pool with
        | (none, pool1) =>
            if env.fallbackStartFails then
              ⟨.ok (generatePlaceholder url w h),
               ⟨st.cache, pool1, st.renders⟩, false, false⟩
            else
              match bareTakeScreenshot env.render url w h with
              | .error _ =>
                  ⟨.ok (generatePlaceholder url w h),
                   ⟨st.cache, pool1, st.renders + 1⟩, true, false⟩
              | .ok shot =>
                  ⟨.ok shot,
                   ⟨storeIfRequested env maxSize st.cache url w h useCache shot,
                    pool1, st.renders + 1⟩, true, true⟩
        | (some b, pool1) =>
            match takeScreenshotWithBrowser env.render url w h with
            | .error _ =>
                ⟨.ok (generatePlaceholder url w h),
                 ⟨st.cache, returnBrowser b pool1, st.renders + 1⟩, false, false⟩
            | .ok shot =>
                ⟨.ok shot,
                 ⟨storeIfRequested env maxSize st.cache url w h useCache shot,
                  returnBrowser b pool1, st.renders + 1⟩, false, false⟩

lemma generatePlaceholder_ne_nil (url : String) (w h : Nat) :
    generatePlaceholder url w h ≠ [] := by
  unfold generatePlaceholder renderJpeg
  exact List.cons_ne_nil _ _

lemma generatePlaceholderSync_ne_nil (url : String) (w h : Nat) :
    generatePlaceholderSync url w h ≠ [] := by
  unfold generatePlaceholderSync renderJpeg
  exact List.cons_ne_nil _ _

/-- C2: `get_screenshot` always returns image bytes (never an exception to
its caller); when the cache misses and an exception occurs in pool
acquisition or in rendering, the result is the generated placeholder, whose
encoded pixel dimensions are exactly the requested width × height. -/
theorem facade_never_raises (env : FacadeEnv) (maxSize : Nat) (st : ApiState)
    (url : String) (w h : Nat) (useCache : Bool) :
    (∃ b, (getScreenshot env maxSize st url w h useCache).out = .ok b) ∧
    decodeJpegDims (generatePlaceholder url w h) = some (w, h) ∧
    (env.poolGetRaises = true → useCache = false →
      (getScreenshot env maxSize st url w h useCache).out =
        .ok (generatePlaceholder url w h)) ∧
    (facadeCacheHit env st.cache url w h useCache = none →
      env.poolGetRaises = false → env.fallbackStartFails = false →
      env.render.newPageFails = true →
      (getScreenshot env maxSize st url w h useCache).out =
        .ok (generatePlaceholder url w h)) := by
  refine ⟨?_, rfl, ?_, ?_⟩
  · unfold getScreenshot
    repeat' split
    all_goals exact ⟨_, rfl⟩
  · intro hpg huc
    subst huc
    have hhit : facadeCacheHit env st.cache url w h false = none := rfl
    simp [getScreenshot, hhit, hpg]
  · intro hhit hpg hsf hnp
    rcases hgb : getBrowser env.slots st.pool with ⟨bOpt, pool1⟩
    cases bOpt with
    | none =>
        simp [getScreenshot, hhit, hpg, hgb, hsf, bareTakeScreenshot, hnp]
    | some b =>
        simp [getScreenshot, hhit, hpg, hgb, takeScreenshotWithBrowser, hnp]

/-- Witness for C2 at a concrete failing environment (pool acquisition
raises, cache disabled; and separately a pooled new-page failure). -/
theorem facade_never_raises_witness :
    (∃ b, (getScreenshot ⟨fun _ => true, true, false, ⟨false, false, [1]⟩,
        false, false, 7⟩ 5 ⟨[], freshPool 1, 0⟩ "https://example.com" 300 200
        false).out = .ok b) ∧
    decodeJpegDims (generatePlaceholder "https://example.com" 300 200) =
      some (300, 200) ∧
    (getScreenshot ⟨fun _ => true, true, false, ⟨false, false, [1]⟩,
        false, false, 7⟩ 5 ⟨[], freshPool 1, 0⟩ "https://example.com" 300 200
        false).out = .ok (generatePlaceholder "https://example.com" 300 200) := by
  have h := facade_never_raises ⟨fun _ => true, true, false, ⟨false, false, [1]⟩,
    false, false, 7⟩ 5 ⟨[], freshPool 1, 0⟩ "https://example.com" 300 200 false
  exact ⟨h.1, h.2.1, h.2.2.1 rfl rfl⟩

lemma cleanupCache_id {maxSize : Nat} {files : List CacheFile}
    (hlen : files.length ≤ maxSize) : cleanupCache maxSize files = files := by
  unfold cleanupCache
  rw [if_neg (by omega)]

lemma upsert_length_le (files : List CacheFile) (key : String)
    (data : List Nat) (now : Nat) :
    (upsert files key data now).length ≤ files.length + 1 := by
  unfold upsert
  by_cases hany : files.any (fun f => f.name = key) = true
  · rw [if_pos hany, List.length_map]
    omega
  · rw [if_neg hany, List.length_append, List.length_singleton]

lemma find?_map_overwrite (files : List CacheFile) (key : String)
    (data : List Nat) (now : Nat)
    (h : files.any (fun f => f.name = key) = true) :
    (files.map (fun f => if f.name = key then (⟨key, now, data⟩ : CacheFile)
        else f)).find? (fun f => f.name = key) = some ⟨key, now, data⟩ := by
  induction files with
  | nil => simp at h
  | cons f fs ih =>
      by_cases hf : f.name = key
      · rw [List.map_cons, if_pos hf]
        simp [List.find?_cons]
      · rw [List.map_cons, if_neg hf]
        rw [List.find?_cons_of_neg _ (by simpa using hf)]
        apply ih
        rw [List.any_cons] at h
        simpa [hf] using h

lemma find?_upsert (files : List CacheFile) (key : String) (data : List Nat)
    (now : Nat) :
    ∃ g : CacheFile,
      (upsert files key data now).find? (fun f => f.name = key) = some g ∧
      g.data = data := by
  unfold upsert
  by_cases hany : files.any (fun f => f.name = key) = true
  · rw [if_pos hany]
    exact ⟨_, find?_map_overwrite files key data now hany, rfl⟩
  · rw [if_neg hany]
    have hall : ∀ f ∈ files, ¬ (f.name = key) := by
      intro f hf hc
      exact hany (List.any_eq_true.mpr ⟨f, hf, decide_eq_true hc⟩)
    refine ⟨⟨key, now, data⟩, ?_, rfl⟩
    induction files with
    | nil => simp [List.find?]
    | cons f fs ih =>
        rw [List.cons_append,
          List.find?_cons_of_neg _ (by simpa using hall f (by simp))]
        apply ih
        · intro hc
          exact hany (by simp only [List.any_cons, hc, Bool.or_true])
        · intro g hg
          exact hall g (List.mem_cons_of_mem f hg)

/-- After a successful store of nonempty bytes into a below-capacity cache,
the Facade's cache lookup hits and returns exactly those bytes. -/
lemma facadeCacheHit_after_store (env2 : FacadeEnv) (maxSize : Nat)
    (files : List CacheFile) (url : String) (w h now : Nat) (shot : List Nat)
    (hrf : env2.cacheReadFails = false)
    (hcap : files.length < maxSize) (hne : shot ≠ []) :
    facadeCacheHit env2 (cacheScreenshot maxSize now files url w h shot)
      url w h true = some shot := by
  have hclean : cacheScreenshot maxSize now files url w h shot =
      upsert files (cacheKey url w h) shot now := by
    unfold cacheScreenshot
    apply cleanupCache_id
    have := upsert_length_le files (cacheKey url w h) shot now
    omega
  obtain ⟨g, hfind, hdata⟩ := find?_upsert files (cacheKey url w h) shot now
  rw [hclean]
  unfold facadeCacheHit getCachedScreenshot
  rw [if_pos rfl, hfind, hrf]
  simp only [Bool.false_eq_true, if_false, hdata]
  rw [if_neg hne]

/-- On a cache miss with a healthy environment (no pool/acquisition failure,
no new-page failure, working cache writes), `get_screenshot` renders once,
returns the rendered bytes (real capture or in-render placeholder) and
stores them in the cache. -/
lemma getScreenshot_renderOk (env : FacadeEnv) (maxSize : Nat) (st : ApiState)
    (url : String) (w h : Nat)
    (hhit : facadeCacheHit env st.cache url w h true = none)
    (hpg : env.poolGetRaises = false)
    (hsf : env.fallbackStartFails = false)
    (hnp : env.render.newPageFails = false)
    (hwf : env.cacheWriteFails = false) :
    ∃ shot1,
      (shot1 = env.render.shot ∨ shot1 = generatePlaceholder url w h ∨
        shot1 = generatePlaceholderSync url w h) ∧
      (getScreenshot env maxSize st url w h true).out = .ok shot1 ∧
      (getScreenshot env maxSize st url w h true).st.cache =
        cacheScreenshot maxSize env.now st.cache url w h shot1 ∧
      (getScreenshot env maxSize st url w h true).st.renders = st.renders + 1 := by
  rcases hgb : getBrowser env.slots st.pool with ⟨bOpt, pool1⟩
  cases bOpt with
  | none =>
      cases hnav : env.render.navFails with
      | false =>
          refine ⟨env.render.shot, Or.inl rfl, ?_⟩
          simp [getScreenshot, hhit, hpg, hgb, hsf, bareTakeScreenshot, hnp,
            hnav, storeIfRequested, hwf]
      | true =>
          refine ⟨generatePlaceholderSync url w h, Or.inr (Or.inr rfl), ?_⟩
          simp [getScreenshot, hhit, hpg, hgb, hsf, bareTakeScreenshot, hnp,
            hnav, storeIfRequested, hwf]
  | some b =>
      cases hnav : env.render.navFails with
      | false =>
          refine ⟨env.render.shot, Or.inl rfl, ?_⟩
          simp [getScreenshot, hhit, hpg, hgb, takeScreenshotWithBrowser, hnp,
            hnav, storeIfRequested, hwf]
      | true =>
          refine ⟨generatePlaceholder url w h, Or.inr (Or.inl rfl), ?_⟩
          simp [getScreenshot, hhit, hpg, hgb, takeScreenshotWithBrowser, hnp,
            hnav, storeIfRequested, hwf]

/-- On a cache hit, `get_screenshot` returns the cached bytes at once and
leaves the state untouched. -/
lemma getScreenshot_hit {env : FacadeEnv} {maxSize : Nat} {st : ApiState}
    {url : String} {w h : Nat} {useCache : Bool} {d : List Nat}
    (hhit : facadeCacheHit env st.cache url w h useCache = some d) :
    getScreenshot env maxSize st url w h useCache = ⟨.ok d, st, false, false⟩ := by
  unfold getScreenshot
  rw [hhit]

/-- C6: with caching on, a healthy first call and a readable cache, a second
call with the same (url, width, height) returns byte-identical output and
does not invoke the renderer (the spy counter is unchanged): it is served
from the cache entry the first call wrote. -/
theorem second_call_cached_identical (env1 env2 : FacadeEnv) (maxSize : Nat)
    (st : ApiState) (url : String) (w h : Nat)
    (hpg : env1.poolGetRaises = false)
    (hsf : env1.fallbackStartFails = false)
    (hnp : env1.render.newPageFails = false)
    (hwf : env1.cacheWriteFails = false)
    (hshot : env1.render.shot ≠ [])
    (hrf : env2.cacheReadFails = false)
    (hrf1 : env1.cacheReadFails = false)
    (hcap : st.cache.length < maxSize) :
    (getScreenshot env2 maxSize (getScreenshot env1 maxSize st url w h true).st
        url w h true).out = (getScreenshot env1 maxSize st url w h true).out ∧
    (getScreenshot env2 maxSize (getScreenshot env1 maxSize st url w h true).st
        url w h true).st.renders =
      (getScreenshot env1 maxSize st url w h true).st.renders := by
  cases hhit : facadeCacheHit env1 st.cache url w h true with
  | some d =>
      have hr1 : getScreenshot env1 maxSize st url w h true =
          ⟨.ok d, st, false, false⟩ := getScreenshot_hit hhit
      have hd : facadeCacheHit env2 st.cache url w h true = some d := by
        unfold facadeCacheHit getCachedScreenshot at hhit ⊢
        rw [if_pos rfl] at hhit ⊢
        cases hfind : st.cache.find? (fun f => f.name = cacheKey url w h) with
        | none => rw [hfind] at hhit; exact absurd hhit (by simp)
        | some f =>
            rw [hfind] at hhit
            rw [hrf1] at hhit
            simp only [Bool.false_eq_true, if_false] at hhit
            rw [hrf]
            simp only [Bool.false_eq_true, if_false]
            exact hhit
      have hr2 : getScreenshot env2 maxSize st url w h true =
          ⟨.ok d, st, false, false⟩ := getScreenshot_hit hd
      rw [hr1]
      dsimp only
      rw [hr2]
      exact ⟨rfl, rfl⟩
  | none =>
      obtain ⟨shot1, hcases, hout, hcache, hrend⟩ :=
        getScreenshot_renderOk env1 maxSize st url w h hhit hpg hsf hnp hwf
      have hne : shot1 ≠ [] := by
        rcases hcases with hc | hc | hc
        · rw [hc]; exact hshot
        · rw [hc]; exact generatePlaceholder_ne_nil url w h
        · rw [hc]; exact generatePlaceholderSync_ne_nil url w h
      have hhit2 : facadeCacheHit env2
          (getScreenshot env1 maxSize st url w h true).st.cache url w h true =
          some shot1 := by
        rw [hcache]
        exact facadeCacheHit_after_store env2 maxSize st.cache url w h env1.now
          shot1 hrf hcap hne
      have hr2 : getScreenshot env2 maxSize
          (getScreenshot env1 maxSize st url w h true).st url w h true =
          ⟨.ok shot1, (getScreenshot env1 maxSize st url w h true).st,
            false, false⟩ := getScreenshot_hit hhit2
      rw [hr2, hout]
      exact ⟨rfl, rfl⟩

/-- Witness for C6 at a concrete healthy environment: the second call
returns the first call's bytes with no new render. -/
theorem second_call_cached_identical_witness :
    (getScreenshot ⟨fun _ => true, false, false, ⟨false, false, [1, 2, 3]⟩,
        false, false, 9⟩ 5
      (getScreenshot ⟨fun _ => true, false, false, ⟨false, false, [1, 2, 3]⟩,
        false, false, 7⟩ 5 ⟨[], freshPool 1, 0⟩ "https://example.com" 300 200
        true).st "https://example.com" 300 200 true).out =
      (getScreenshot ⟨fun _ => true, false, false, ⟨false, false, [1, 2, 3]⟩,
        false, false, 7⟩ 5 ⟨[], freshPool 1, 0⟩ "https://example.com" 300 200
        true).out ∧
    (getScreenshot ⟨fun _ => true, false, false, ⟨false, false, [1, 2, 3]⟩,
        false, false, 9⟩ 5
      (getScreenshot ⟨fun _ => true, false, false, ⟨false, false, [1, 2, 3]⟩,
        false, false, 7⟩ 5 ⟨[], freshPool 1, 0⟩ "https://example.com" 300 200
        true).st "https://example.com" 300 200 true).st.renders =
      (getScreenshot ⟨fun _ => true, false, false, ⟨false, false, [1, 2, 3]⟩,
        false, false, 7⟩ 5 ⟨[], freshPool 1, 0⟩ "https://example.com" 300 200
        true).st.renders :=
  second_call_cached_identical
    ⟨fun _ => true, false, false, ⟨false, false, [1, 2, 3]⟩, false, false, 7⟩
    ⟨fun _ => true, false, false, ⟨false, false, [1, 2, 3]⟩, false, false, 9⟩
    5 ⟨[], freshPool 1, 0⟩ "https://example.com" 300 200
    rfl rfl rfl rfl (by simp) rfl rfl (by simp)

lemma returnBrowser_returned_or_closed (b : Nat) (p : PoolState) :
    b ∈ (returnBrowser b p).browsers ∨ b ∈ (returnBrowser b p).closed := by
  unfold returnBrowser
  by_cases hsd : p.isShutdown = true
  · rw [if_pos hsd]
    right
    exact List.mem_cons_self _ _
  · rw [if_neg hsd]
    by_cases hlen : p.browsers.length < p.poolSize
    · rw [if_pos hlen]
      left
      simp
    · rw [if_neg hlen]
      right
      exact List.mem_cons_self _ _

/-- C7 counterexample: the transient fallback session CAN leak.  With the
pool exhausted, the fallback service is started (line 583); when
`new_page` then raises (line 355, before the try), the exception skips
`service.stop()` (line 587), the catch-all returns a placeholder, and the
finally block (lines 606-621) only handles the pooled `browser` variable —
so the transient session is started but never stopped. -/
theorem transient_session_leaked :
    (getScreenshot ⟨fun _ => false, false, false, ⟨true, false, [1]⟩,
        false, false, 7⟩ 5 ⟨[], freshPool 0, 0⟩
        "https://example.com" 300 200 false).transientStarted = true ∧
    (getScreenshot ⟨fun _ => false, false, false, ⟨true, false, [1]⟩,
        false, false, 7⟩ 5 ⟨[], freshPool 0, 0⟩
        "https://example.com" 300 200 false).transientStopped = false :=
  ⟨rfl, rfl⟩

/-- C7 amended: a handle obtained from the pool is returned to the pool or
closed on every execution path (the finally block covers the
render-exception path); and the transient fallback session is fully torn
down whenever rendering with it actually ran (no new-page failure) — on a
new-page failure before rendering, teardown is skipped and the session
leaks, as the counterexample shows. -/
theorem no_handle_leak (env : FacadeEnv) (maxSize : Nat) (st : ApiState)
    (url : String) (w h : Nat) (useCache : Bool) (b : Nat) :
    (facadeCacheHit env st.cache url w h useCache = none →
      env.poolGetRaises = false →
      (getBrowser env.slots st.pool).1 = some b →
      b ∈ (getScreenshot env maxSize st url w h useCache).st.pool.browsers ∨
      b ∈ (getScreenshot env maxSize st url w h useCache).st.pool.closed) ∧
    ((getScreenshot env maxSize st url w h useCache).transientStarted = true →
      env.render.newPageFails = false →
      (getScreenshot env maxSize st url w h useCache).transientStopped = true) := by
  constructor
  · intro hhit hpg hgb1
    rcases hgb : getBrowser env.slots st.pool with ⟨bOpt, pool1⟩
    rw [hgb] at hgb1
    cases bOpt with
    | none => exact absurd hgb1 (by simp)
    | some b' =>
        have hb : b' = b := by simpa using hgb1
        subst hb
        have hred : (getScreenshot env maxSize st url w h useCache).st.pool =
            returnBrowser b' pool1 := by
          cases hts : takeScreenshotWithBrowser env.render url w h with
          | error e => simp [getScreenshot, hhit, hpg, hgb, hts]
          | ok shot => simp [getScreenshot, hhit, hpg, hgb, hts]
        rw [hred]
        exact returnBrowser_returned_or_closed b' pool1
  · intro hts hnp
    cases hhit : facadeCacheHit env st.cache url w h useCache with
    | some d =>
        rw [getScreenshot_hit hhit] at hts
        exact absurd hts (by simp)
    | none =>
        by_cases hpg : env.poolGetRaises = true
        · rw [show (getScreenshot env maxSize st url w h useCache) =
              ⟨.ok (generatePlaceholder url w h), st, false, false⟩ by
            simp [getScreenshot, hhit, hpg]] at hts
          exact absurd hts (by simp)
        · rcases hgb : getBrowser env.slots st.pool with ⟨bOpt, pool1⟩
          cases bOpt with
          | some b' =>
              cases hr : takeScreenshotWithBrowser env.render url w h with
              | error e =>
                  simp [getScreenshot, hhit, hpg, hgb, hr] at hts
              | ok shot =>
                  simp [getScreenshot, hhit, hpg, hgb, hr] at hts
          | none =>
              by_cases hsf : env.fallbackStartFails = true
              · simp [getScreenshot, hhit, hpg, hgb, hsf] at hts
              · cases hr : bareTakeScreenshot env.render url w h with
                | error e =>
                    exfalso
                    rw [bareTakeScreenshot, hnp] at hr
                    cases hnav : env.render.navFails with
                    | false => rw [hnav] at hr; simp at hr
                    | true => rw [hnav] at hr; simp at hr
                | ok shot =>
                    simp [getScreenshot, hhit, hpg, hgb, hsf, hr]

/-- Witness for C7: a concrete pooled acquisition whose handle is returned
or closed, and a concrete fallback call whose transient service is
stopped. -/
theorem no_handle_leak_witness :
    (4 ∈ (getScreenshot ⟨fun _ => true, false, false, ⟨false, false, [1]⟩,
        false, false, 7⟩ 5 ⟨[], ⟨1, [4], true, false, 5, [], []⟩, 0⟩
        "https://example.com" 300 200 false).st.pool.browsers ∨
      4 ∈ (getScreenshot ⟨fun _ => true, false, false, ⟨false, false, [1]⟩,
        false, false, 7⟩ 5 ⟨[], ⟨1, [4], true, false, 5, [], []⟩, 0⟩
        "https://example.com" 300 200 false).st.pool.closed) ∧
    (getScreenshot ⟨fun _ => false, false, false, ⟨false, false, [1]⟩,
        false, false, 7⟩ 5 ⟨[], freshPool 0, 0⟩
        "https://example.com" 300 200 false).transientStopped = true :=
  ⟨(no_handle_leak ⟨fun _ => true, false, false, ⟨false, false, [1]⟩,
      false, false, 7⟩ 5 ⟨[], ⟨1, [4], true, false, 5, [], []⟩, 0⟩
      "https://example.com" 300 200 false 4).1 rfl rfl rfl,
   (no_handle_leak ⟨fun _ => false, false, false, ⟨false, false, [1]⟩,
      false, false, 7⟩ 5 ⟨[], freshPool 0, 0⟩
      "https://example.com" 300 200 false 0).2 rfl rfl⟩

/-- C9: when the pooled render fails inside `_take_screenshot_with_browser`
(for example a navigation timeout), the placeholder bytes it returns are
stored in the cache under the (url, width, height) key, and a later
cache-using call returns the placeholder without invoking the renderer. -/
theorem failed_render_placeholder_cached (env1 env2 : FacadeEnv)
    (maxSize : Nat) (st : ApiState) (url : String) (w h : Nat) (b : Nat)
    (hhit : facadeCacheHit env1 st.cache url w h true = none)
    (hpg : env1.poolGetRaises = false)
    (hgb1 : (getBrowser env1.slots st.pool).1 = some b)
    (hnp : env1.render.newPageFails = false)
    (hnav : env1.render.navFails = true)
    (hwf : env1.cacheWriteFails = false)
    (hcap : st.cache.length < maxSize)
    (hrf : env2.cacheReadFails = false) :
    (getScreenshot env1 maxSize st url w h true).out =
      .ok (generatePlaceholder url w h) ∧
    (getScreenshot env2 maxSize (getScreenshot env1 maxSize st url w h true).st
        url w h true).out = .ok (generatePlaceholder url w h) ∧
    (getScreenshot env2 maxSize (getScreenshot env1 maxSize st url w h true).st
        url w h true).st.renders =
      (getScreenshot env1 maxSize st url w h true).st.renders := by
  rcases hgb : getBrowser env1.slots st.pool with ⟨bOpt, pool1⟩
  rw [hgb] at hgb1
  cases bOpt with
  | none => exact absurd hgb1 (by simp)
  | some b' =>
      have hts : takeScreenshotWithBrowser env1.render url w h =
          .ok (generatePlaceholder url w h) := by
        rw [takeScreenshotWithBrowser, hnp, hnav]
        simp
      have hout : (getScreenshot env1 maxSize st url w h true).out =
          .ok (generatePlaceholder url w h) := by
        simp [getScreenshot, hhit, hpg, hgb, hts]
      have hcache : (getScreenshot env1 maxSize st url w h true).st.cache =
          cacheScreenshot maxSize env1.now st.cache url w h
            (generatePlaceholder url w h) := by
        simp [getScreenshot, hhit, hpg, hgb, hts, storeIfRequested, hwf]
      have hhit2 : facadeCacheHit env2
          (getScreenshot env1 maxSize st url w h true).st.cache url w h true =
          some (generatePlaceholder url w h) := by
        rw [hcache]
        exact facadeCacheHit_after_store env2 maxSize st.cache url w h env1.now
          (generatePlaceholder url w h) hrf hcap
          (generatePlaceholder_ne_nil url w h)
      have hr2 : getScreenshot env2 maxSize
          (getScreenshot env1 maxSize st url w h true).st url w h true =
          ⟨.ok (generatePlaceholder url w h),
            (getScreenshot env1 maxSize st url w h true).st,
            false, false⟩ := getScreenshot_hit hhit2
      rw [hr2, hout]
      exact ⟨rfl, rfl, rfl⟩

/-- Witness for C9: a concrete timed-out pooled render whose placeholder is
cached and served to the second call with no new render. -/
theorem failed_render_placeholder_cached_witness :
    (getScreenshot ⟨fun _ => true, false, false, ⟨false, true, [1]⟩,
        false, false, 7⟩ 5 ⟨[], ⟨1, [4], true, false, 5, [], []⟩, 0⟩
        "https://example.com" 300 200 true).out =
      .ok (generatePlaceholder "https://example.com" 300 200) ∧
    (getScreenshot ⟨fun _ => true, false, false, ⟨false, false, [2]⟩,
        false, false, 9⟩ 5
      (getScreenshot ⟨fun _ => true, false, false, ⟨false, true, [1]⟩,
        false, false, 7⟩ 5 ⟨[], ⟨1, [4], true, false, 5, [], []⟩, 0⟩
        "https://example.com" 300 200 true).st "https://example.com" 300 200
        true).out = .ok (generatePlaceholder "https://example.com" 300 200) ∧
    (getScreenshot ⟨fun _ => true, false, false, ⟨false, false, [2]⟩,
        false, false, 9⟩ 5
      (getScreenshot ⟨fun _ => true, false, false, ⟨false, true, [1]⟩,
        false, false, 7⟩ 5 ⟨[], ⟨1, [4], true, false, 5, [], []⟩, 0⟩
        "https://example.com" 300 200 true).st "https://example.com" 300 200
        true).st.renders =
      (getScreenshot ⟨fun _ => true, false, false, ⟨false, true, [1]⟩,
        false, false, 7⟩ 5 ⟨[], ⟨1, [4], true, false, 5, [], []⟩, 0⟩
        "https://example.com" 300 200 true).st.renders :=
  failed_render_placeholder_cached
    ⟨fun _ => true, false, false, ⟨false, true, [1]⟩, false, false, 7⟩
    ⟨fun _ => true, false, false, ⟨false, false, [2]⟩, false, false, 9⟩
    5 ⟨[], ⟨1, [4], true, false, 5, [], []⟩, 0⟩ "https://example.com" 300 200 4
    rfl rfl rfl rfl rfl rfl (by simp) rfl

/-- C8 counterexample: at a concrete environment where navigation raises,
the bare (non-pooled) renderer does NOT re-raise to its caller: it returns
the sync placeholder bytes (its internal fallback makes placeholder
generation total, so the `raise e` branch at line 401 is unreachable). -/
theorem bare_renderer_does_not_reraise :
    bareTakeScreenshot ⟨false, true, [7]⟩ "https://example.com" 300 200 =
      .ok (generatePlaceholderSync "https://example.com" 300 200) ∧
    bareTakeScreenshot ⟨false, true, [7]⟩ "https://example.com" 300 200 ≠
      .error () :=
  ⟨rfl, fun hc => Except.noConfusion hc⟩

/-- C8 amended: in the bare path, exceptions during navigation or capture
are caught and converted into `_generate_placeholder_sync` bytes — not
re-raised — just as the pooled path converts them into `_generate_placeholder`
bytes; the bare path would re-raise only if placeholder generation itself
failed, which the sync generator's hard-coded fallback prevents. -/
theorem bare_and_pooled_convert_to_placeholder (env : RenderEnv)
    (url : String) (w h : Nat)
    (hnp : env.newPageFails = false) (hnav : env.navFails = true) :
    bareTakeScreenshot env url w h = .ok (generatePlaceholderSync url w h) ∧
    takeScreenshotWithBrowser env url w h =
      .ok (generatePlaceholder url w h) := by
  constructor
  · rw [bareTakeScreenshot, hnp, hnav]
    simp
  · rw [takeScreenshotWithBrowser, hnp, hnav]
    simp

/-- Witness for C8's amended statement at a concrete environment. -/
theorem bare_and_pooled_convert_to_placeholder_witness :
    bareTakeScreenshot ⟨false, true, [9]⟩ "https://a.example" 20 10 =
      .ok (generatePlaceholderSync "https://a.example" 20 10) ∧
    takeScreenshotWithBrowser ⟨false, true, [9]⟩ "https://a.example" 20 10 =
      .ok (generatePlaceholder "https://a.example" 20 10) :=
  bare_and_pooled_convert_to_placeholder ⟨false, true, [9]⟩
    "https://a.example" 20 10 rfl rfl

/-- Python `or` on an optional boolean: the first operand when truthy
(`True`), else the second; `None` and `False` are falsy. -/
def pyOrBool (x : Option Bool) (dflt : Bool) : Bool :=
  match x with
  | some true => true
  | _ => dflt

/-- Python `or` on an optional integer: `None` and `0` are falsy. -/
def pyOrNat (x : Option Nat) (dflt : Nat) : Nat :=
  match x with
  | some n => if n = 0 then dflt else n
  | none => dflt

/-- Python `or` on an optional string: `None` and `""` are falsy. -/
def pyOrStr (x : Option String) (dflt : String) : String :=
  match x with
  | some s => if s = "" then dflt else s
  | none => dflt

/-- The request body of `POST /screenshot` (api/main.py, lines 73-80). -/
structure RouteScreenshotRequest where
  url : String
  width : Option Nat
  height : Option Nat
  full_page : Option Bool
  quality : Option Nat
  format : Option String
  use_cache : Option Bool

/-- The arguments the `POST /screenshot` route passes to
`ScreenshotAPI.get_screenshot` (api/main.py, lines 140-148): every optional
field is forwarded as `value or default`. -/
def routeArgs (r : RouteScreenshotRequest) : ScreenshotReq :=
  { url := r.url
    width := pyOrNat r.width 200
    height := pyOrNat r.height 150
    full_page := pyOrBool r.full_page false
    quality := pyOrNat r.quality 90
    format := pyOrStr r.format "jpeg"
    use_cache := pyOrBool r.use_cache true }

/-- C10: the POST route forwards `use_cache or True`, which evaluates to
`True` for every client-supplied value — including an explicit
`use_cache=false`. -/
theorem route_always_enables_cache (r : RouteScreenshotRequest) :
    (routeArgs r).use_cache = true ∧
    (routeArgs { r with use_cache := some false }).use_cache = true := by
  constructor
  · show pyOrBool r.use_cache true = true
    unfold pyOrBool
    cases hx : r.use_cache with
    | none => rfl
    | some b => cases b <;> rfl
  · rfl

end SiteScreenshot
